import Mathlib

/-!
Verification of the iSCSI Common Layer driver registry
(sys/dev/iscsi/icl.c): a shallow embedding of the registry data model
and of the operations icl_find, icl_new_conn, icl_limits, icl_register,
icl_unregister, sysctl_kern_icl_drivers and icl_unload, followed by
theorems about their behaviour.

Modelling conventions:
- The TAILQ of icl_module records is a Lean list; TAILQ_FIRST is the
  list head, TAILQ_INSERT_HEAD is cons.  A C pointer to a node is
  modelled as the node's index in the list, so functions that return a
  node pointer (icl_find) return an (index, record) pair produced by
  folding or searching over the list paired with indices
  (List.enum / List.enumFrom), and TAILQ_REMOVE of that pointer is
  List.eraseIdx at that index.
- A `const char *` that may be NULL is an `Option String`; NULL is
  `none`, and the C test `name == NULL || name[0] == 0` is `nameEmpty`.
- `strcasecmp(a, b) == 0` is case-insensitive equality of the two
  strings, computed character by character with Char.toLower over the
  underlying character lists.
- The out-parameter `size_t *limitp` of icl_limits and of the im_limits
  callback is modelled by passing the current pointee value in and
  returning the new pointee value alongside the int return code.
- The factory callback im_new_conn returns `Option Conn`: `none` is a
  NULL `struct icl_conn *`.
- Locking (sx_slock / sx_xlock) has no effect in the sequential model
  and is elided; logging (ICL_WARN / ICL_DEBUG) is elided.
- KASSERT in icl_unload is modelled by icl_unload returning
  `Option Int`: `some 0` when the assertion passes and the function
  returns 0, `none` when the fatal assertion fires.
-/

namespace Icl

/-- FreeBSD errno EBUSY (device busy), returned by icl_register on a
name collision. -/
def EBUSY : Int := 16

/-- FreeBSD errno ENXIO_errno (no such device), returned by icl_limits and
icl_unregister when no driver is found. -/
def ENXIO_errno : Int := 6

/-- `strcasecmp(a, b) == 0`: the two strings are equal after mapping
every character to lower case. -/
def strcaseEq (a b : String) : Bool :=
  a.data.map Char.toLower == b.data.map Char.toLower

/-- The C test `name == NULL || name[0] == lit 0` on a nullable string. -/
def nameEmpty : Option String → Bool
  | none => true
  | some s => s.isEmpty

/-- struct icl_module: one registered offload driver.  `C` is the
connection-handle type produced by the factory, `L` the type of the
caller-owned mutex passed through to it. -/
structure icl_module (C L : Type) where
  im_name : String
  im_priority : Int
  im_limits : Nat → Int × Nat
  im_new_conn : String → L → Option C

/-- The registry contents, sc->sc_modules: TAILQ head = list head. -/
abbrev Registry (C L : Type) : Type := List (icl_module C L)

/-- The loop body of icl_find's priority scan on (index, record)
pairs: keep the running maximum unless the next entry's priority is
strictly greater. -/
def pickMax (mx im : Nat × icl_module C L) : Nat × icl_module C L :=
  if im.2.im_priority > mx.2.im_priority then im else mx

/-- The same loop body on bare records, used to state lemmas about the
record icl_find returns. -/
def mpick (mx im : icl_module C L) : icl_module C L :=
  if im.im_priority > mx.im_priority then im else mx

/-- icl_find, returning the found node as an (index, record) pair
(the index models the C pointer's identity within the list).
If the name is NULL or empty it scans the whole queue and keeps the
entry with the strictly greatest priority, starting from TAILQ_FIRST,
so the first entry attaining the maximum wins ties; on an empty queue
it returns NULL.  Otherwise it returns the first entry whose name
matches case-insensitively, or NULL. -/
def icl_find_ent (name : Option String) (mods : Registry C L) :
    Option (Nat × icl_module C L) :=
  if nameEmpty name then
    match mods.enum with
    | [] => none
    | e :: _ => some (mods.enum.foldl pickMax e)
  else
    mods.enum.find? (fun im => strcaseEq im.2.im_name (name.getD ""))

/-- icl_find as the C caller sees it: the record pointed to, or NULL. -/
def icl_find (name : Option String) (mods : Registry C L) :
    Option (icl_module C L) :=
  (icl_find_ent name mods).map (fun e => e.2)

/-- icl_new_conn: resolve the offload name; on failure return NULL,
otherwise call the driver's factory with the connection name and the
caller's lock and return its result. -/
def icl_new_conn (offload : Option String) (name : String) (lock : L)
    (mods : Registry C L) : Option C :=
  match icl_find offload mods with
  | none => none
  | some im => im.im_new_conn name lock

/-- icl_limits: resolve the offload name; on failure return ENXIO_errno with
the pointee of limitp untouched, otherwise return the callback's error
code and the value it stores through limitp. -/
def icl_limits (offload : Option String) (limitp : Nat)
    (mods : Registry C L) : Int × Nat :=
  match icl_find offload mods with
  | none => (ENXIO_errno, limitp)
  | some im => im.im_limits limitp

/-- icl_register: if icl_find locates a module for the name, fail with
EBUSY leaving the queue alone; otherwise allocate a record with a copy
of the name and the given priority and callbacks and insert it at the
head (TAILQ_INSERT_HEAD), returning 0. -/
def icl_register (offload : String) (priority : Int)
    (limits : Nat → Int × Nat) (new_conn : String → L → Option C)
    (mods : Registry C L) : Int × Registry C L :=
  match icl_find (some offload) mods with
  | some _ => (EBUSY, mods)
  | none => (0, ⟨offload, priority, limits, new_conn⟩ :: mods)

/-- icl_unregister: if icl_find does not locate a module, fail with
ENXIO_errno leaving the queue alone; otherwise TAILQ_REMOVE the located node
(modelled by erasing at its index) and return 0. -/
def icl_unregister (offload : Option String) (mods : Registry C L) :
    Int × Registry C L :=
  match icl_find_ent offload mods with
  | none => (ENXIO_errno, mods)
  | some e => (0, mods.eraseIdx e.1)

/-- sysctl_kern_icl_drivers: walk the queue accumulating each name into
the sbuf, preceded by a space whenever the current node is not
TAILQ_FIRST (index 0). -/
def sysctl_kern_icl_drivers (mods : Registry C L) : String :=
  mods.enum.foldl
    (fun sb im => (if im.1 ≠ 0 then sb ++ " " else sb) ++ im.2.im_name) ""

/-- icl_unload: KASSERT(TAILQ_EMPTY(&sc->sc_modules)) then return 0.
`none` models the fatal assertion firing. -/
def icl_unload (mods : Registry C L) : Option Int :=
  if mods.isEmpty then some 0 else none

/-- A registry operation, for reasoning about call sequences:
a register call with its arguments, or an unregister call. -/
inductive IclOp (C L : Type) where
  | reg (name : String) (priority : Int)
      (limits : Nat → Int × Nat) (new_conn : String → L → Option C)
  | unreg (name : Option String)

/-- Apply one operation, returning its error code and the new state. -/
def icl_step (mods : Registry C L) : IclOp C L → Int × Registry C L
  | .reg n p f g => icl_register n p f g mods
  | .unreg n => icl_unregister n mods

/-- Run a sequence of operations from a state; return the final state
together with the number of successful (return code 0) register calls
and the number of successful unregister calls. -/
def icl_run (mods : Registry C L) : List (IclOp C L) → Registry C L × Nat × Nat
  | [] => (mods, 0, 0)
  | op :: ops =>
    let r := icl_step mods op
    let rest := icl_run r.2 ops
    match op with
    | .reg _ _ _ _ => (rest.1, (if r.1 = 0 then 1 else 0) + rest.2.1, rest.2.2)
    | .unreg _ => (rest.1, rest.2.1, (if r.1 = 0 then 1 else 0) + rest.2.2)

/-- Registry states reachable from the empty initial state
(icl_load initialises sc_modules to the empty queue) by any sequence
of icl_register and icl_unregister calls, successful or not. -/
inductive Reachable : Registry C L → Prop where
  | init : Reachable []
  | step_reg (n : String) (p : Int) (f : Nat → Int × Nat)
      (g : String → L → Option C) (s : Registry C L) :
      Reachable s → Reachable (icl_register n p f g s).2
  | step_unreg (n : Option String) (s : Registry C L) :
      Reachable s → Reachable (icl_unregister n s).2

/-- Modelled from the spec: "concatenates all registered names,
space-separated, in current traversal order ... joined by single
spaces, with no trailing separator".  Used only to compare
sysctl_kern_icl_drivers against the spec's wording. -/
def specJoin : List String → String
  | [] => ""
  | n :: rest => rest.foldl (fun acc x => acc ++ " " ++ x) n

/-- A trivial limits callback for concrete test registries: reports
success and stores its argument back unchanged. -/
def limNop : Nat → Int × Nat := fun n => (0, n)

/-- A trivial factory callback for concrete test registries: always
fails, returning NULL. -/
def connNop : String → Unit → Option Unit := fun _ _ => none

/-- A concrete driver record named "a" with priority 1. -/
def modA : icl_module Unit Unit := ⟨"a", 1, limNop, connNop⟩

/-- A concrete driver record named "b" with priority 5. -/
def modB : icl_module Unit Unit := ⟨"b", 5, limNop, connNop⟩

/-! ## Helper lemmas -/

theorem strcaseEq_symm (a b : String) : strcaseEq a b = strcaseEq b a := by
  unfold strcaseEq
  rw [Bool.eq_iff_iff]
  simp only [beq_iff_eq]
  exact eq_comm

theorem foldl_pick_mem {α : Type} (f : α → α → α)
    (hf : ∀ a b, f a b = a ∨ f a b = b) :
    ∀ (l : List α) (a : α), l.foldl f a = a ∨ l.foldl f a ∈ l := by
  intro l
  induction l with
  | nil => intro a; exact Or.inl rfl
  | cons b t ih =>
    intro a
    rw [List.foldl_cons]
    rcases ih (f a b) with h | h
    · rcases hf a b with h2 | h2
      · rw [h, h2]; exact Or.inl rfl
      · rw [h, h2]; exact Or.inr (List.mem_cons_self b t)
    · exact Or.inr (List.mem_cons_of_mem b h)

theorem fst_lt_of_mem_enumFrom {α : Type} :
    ∀ (l : List α) (k : Nat) (e : Nat × α),
      e ∈ List.enumFrom k l → e.1 < k + l.length := by
  intro l
  induction l with
  | nil => intro k e h; simp [List.enumFrom] at h
  | cons x t ih =>
    intro k e h
    rw [show List.enumFrom k (x :: t) = (k, x) :: List.enumFrom (k + 1) t
      from rfl] at h
    rcases List.mem_cons.mp h with h | h
    · subst h; simp
    · have := ih (k + 1) e h
      simp only [List.length_cons]
      omega

theorem find?_enumFrom_none {α : Type} (p : α → Bool) :
    ∀ (l : List α) (k : Nat),
      List.find? (fun e => p e.2) (List.enumFrom k l) = none ↔
        ∀ x ∈ l, p x = false := by
  intro l
  induction l with
  | nil => intro k; simp [List.enumFrom]
  | cons x t ih =>
    intro k
    rw [show List.enumFrom k (x :: t) = (k, x) :: List.enumFrom (k + 1) t
      from rfl]
    by_cases hx : p x
    · rw [List.find?_cons_of_pos _ (by simpa using hx)]
      simp only [List.mem_cons]
      constructor
      · intro h; exact absurd h (by simp)
      · intro h
        exact absurd (h x (Or.inl rfl)) (by simp [hx])
    · rw [List.find?_cons_of_neg _ (by simpa using hx)]
      rw [ih (k + 1)]
      constructor
      · intro h y hy
        rcases List.mem_cons.mp hy with rfl | hy
        · exact Bool.eq_false_iff.mpr hx
        · exact h y hy
      · intro h y hy
        exact h y (List.mem_cons_of_mem x hy)

theorem find?_enumFrom_some {α : Type} (p : α → Bool) :
    ∀ (l : List α) (k i : Nat) (m : α),
      List.find? (fun e => p e.2) (List.enumFrom k l) = some (i, m) →
      ∃ l₁ l₂, l = l₁ ++ m :: l₂ ∧ p m = true ∧
        (∀ x ∈ l₁, p x = false) ∧ i = k + l₁.length := by
  intro l
  induction l with
  | nil => intro k i m h; simp [List.enumFrom] at h
  | cons x t ih =>
    intro k i m h
    rw [show List.enumFrom k (x :: t) = (k, x) :: List.enumFrom (k + 1) t
      from rfl] at h
    by_cases hx : p x
    · rw [List.find?_cons_of_pos _ (by simpa using hx)] at h
      have h2 : (k, x) = (i, m) := Option.some.inj h
      have hik : i = k := (congrArg Prod.fst h2).symm
      have hmx : m = x := (congrArg Prod.snd h2).symm
      subst hik
      subst hmx
      exact ⟨[], t, rfl, hx, by simp, by simp⟩
    · rw [List.find?_cons_of_neg _ (by simpa using hx)] at h
      rcases ih (k + 1) i m h with ⟨l₁, l₂, ht, hm, hl₁, hi⟩
      refine ⟨x :: l₁, l₂, by rw [ht]; rfl, hm, ?_, ?_⟩
      · intro y hy
        rcases List.mem_cons.mp hy with rfl | hy
        · exact Bool.eq_false_iff.mpr hx
        · exact hl₁ y hy
      · simp only [List.length_cons]
        omega

theorem find?_enumFrom_first {α : Type} (p : α → Bool) :
    ∀ (l₁ : List α) (m : α) (l₂ : List α) (k : Nat),
      p m = true → (∀ x ∈ l₁, p x = false) →
      List.find? (fun e => p e.2) (List.enumFrom k (l₁ ++ m :: l₂)) =
        some (k + l₁.length, m) := by
  intro l₁
  induction l₁ with
  | nil =>
    intro m l₂ k hm _
    rw [List.nil_append]
    rw [show List.enumFrom k (m :: l₂) = (k, m) :: List.enumFrom (k + 1) l₂
      from rfl]
    rw [List.find?_cons_of_pos _ (by simpa using hm)]
    simp
  | cons x t ih =>
    intro m l₂ k hm hl
    rw [List.cons_append]
    rw [show List.enumFrom k (x :: (t ++ m :: l₂)) =
      (k, x) :: List.enumFrom (k + 1) (t ++ m :: l₂) from rfl]
    rw [List.find?_cons_of_neg _
      (by simpa using hl x (List.mem_cons_self x t))]
    rw [ih m l₂ (k + 1) hm (fun y hy => hl y (List.mem_cons_of_mem x hy))]
    have harith : k + 1 + t.length = k + (t.length + 1) := by omega
    rw [harith]
    simp

theorem eraseIdx_append_middle {α : Type} :
    ∀ (l₁ : List α) (m : α) (l₂ : List α),
      (l₁ ++ m :: l₂).eraseIdx l₁.length = l₁ ++ l₂ := by
  intro l₁
  induction l₁ with
  | nil => intro m l₂; rfl
  | cons a t ih => intro m l₂; simp [List.eraseIdx, ih]

theorem pickMax_cases {C L : Type} (a b : Nat × icl_module C L) :
    pickMax a b = a ∨ pickMax a b = b := by
  unfold pickMax
  by_cases h : b.2.im_priority > a.2.im_priority <;> simp [h]

theorem foldl_pickMax_snd {C L : Type} :
    ∀ (l : List (Nat × icl_module C L)) (e : Nat × icl_module C L),
      (l.foldl pickMax e).2 = (l.map Prod.snd).foldl mpick e.2 := by
  intro l
  induction l with
  | nil => intro e; rfl
  | cons b t ih =>
    intro e
    rw [List.foldl_cons, List.map_cons, List.foldl_cons, ih]
    have hstep : (pickMax e b).2 = mpick e.2 b.2 := by
      unfold pickMax mpick
      by_cases h : b.2.im_priority > e.2.im_priority <;> simp [h]
    rw [hstep]

theorem foldl_mpick_spec {C L : Type} :
    ∀ (l : List (icl_module C L)) (a r : icl_module C L),
      l.foldl mpick a = r →
      (a.im_priority ≤ r.im_priority ∧
        ∀ x ∈ l, x.im_priority ≤ r.im_priority) ∧
      (r = a ∨ ∃ l₁ l₂, l = l₁ ++ r :: l₂ ∧
        a.im_priority < r.im_priority ∧
        ∀ x ∈ l₁, x.im_priority < r.im_priority) := by
  intro l
  induction l with
  | nil =>
    intro a r h
    rw [List.foldl_nil] at h
    subst h
    exact ⟨⟨le_refl _, by simp⟩, Or.inl rfl⟩
  | cons b t ih =>
    intro a r h
    rw [List.foldl_cons] at h
    by_cases hb : b.im_priority > a.im_priority
    · have hstep : mpick a b = b := by unfold mpick; simp [hb]
      rw [hstep] at h
      rcases ih b r h with ⟨⟨h1, h2⟩, h3⟩
      constructor
      · constructor
        · exact le_trans (le_of_lt hb) h1
        · intro x hx
          rcases List.mem_cons.mp hx with rfl | hx
          · exact h1
          · exact h2 x hx
      · right
        rcases h3 with h3 | ⟨l₁, l₂, ht, hlt, hl₁⟩
        · refine ⟨[], t, ?_, ?_, ?_⟩
          · rw [List.nil_append, h3]
          · rw [h3]; exact hb
          · simp
        · refine ⟨b :: l₁, l₂, ?_, ?_, ?_⟩
          · rw [ht, List.cons_append]
          · exact lt_trans hb hlt
          · intro x hx
            rcases List.mem_cons.mp hx with rfl | hx
            · exact hlt
            · exact hl₁ x hx
    · have hstep : mpick a b = a := by unfold mpick; simp [hb]
      rw [hstep] at h
      rcases ih a r h with ⟨⟨h1, h2⟩, h3⟩
      refine ⟨⟨h1, ?_⟩, ?_⟩
      · intro x hx
        rcases List.mem_cons.mp hx with rfl | hx
        · exact le_trans (le_of_not_lt hb) h1
        · exact h2 x hx
      · rcases h3 with h3 | ⟨l₁, l₂, ht, hlt, hl₁⟩
        · exact Or.inl h3
        · right
          refine ⟨b :: l₁, l₂, ?_, hlt, ?_⟩
          · rw [ht, List.cons_append]
          · intro x hx
            rcases List.mem_cons.mp hx with rfl | hx
            · exact lt_of_le_of_lt (le_of_not_lt hb) hlt
            · exact hl₁ x hx

theorem foldl_mpick_of_max {C L : Type} :
    ∀ (l : List (icl_module C L)) (a : icl_module C L),
      (∀ x ∈ l, x.im_priority ≤ a.im_priority) → l.foldl mpick a = a := by
  intro l
  induction l with
  | nil => intro a _; rfl
  | cons b t ih =>
    intro a h
    rw [List.foldl_cons]
    have hb : ¬b.im_priority > a.im_priority :=
      not_lt.mpr (h b (List.mem_cons_self b t))
    have hstep : mpick a b = a := by unfold mpick; simp [hb]
    rw [hstep]
    exact ih a (fun x hx => h x (List.mem_cons_of_mem b hx))

theorem nameEmpty_some_iff (n : String) : nameEmpty (some n) = true ↔ n = "" := by
  simp only [nameEmpty]
  exact String.isEmpty_iff n

theorem icl_find_ent_nil {C L : Type} (name : Option String) :
    icl_find_ent name ([] : Registry C L) = none := by
  unfold icl_find_ent
  by_cases h : nameEmpty name = true <;> simp [h, List.enum, List.enumFrom]

theorem icl_find_ent_auto {C L : Type} (name : Option String)
    (h : nameEmpty name = true) (m : icl_module C L) (rest : Registry C L) :
    icl_find_ent name (m :: rest) =
      some (((m :: rest).enum).foldl pickMax (0, m)) := by
  unfold icl_find_ent
  simp only [h, if_true]
  rfl

theorem icl_find_auto {C L : Type} (name : Option String)
    (h : nameEmpty name = true) (m : icl_module C L) (rest : Registry C L) :
    icl_find name (m :: rest) = some ((m :: rest).foldl mpick m) := by
  unfold icl_find
  rw [icl_find_ent_auto name h m rest]
  have hmap : Option.map (fun e => (e : Nat × icl_module C L).2)
      (some (((m :: rest).enum).foldl pickMax (0, m)))
      = some ((((m :: rest).enum).foldl pickMax (0, m)).2) := rfl
  rw [hmap, foldl_pickMax_snd, List.enum_map_snd]

theorem icl_find_eq_none {C L : Type} (name : Option String)
    (mods : Registry C L) :
    icl_find name mods = none ↔ icl_find_ent name mods = none := by
  unfold icl_find
  exact Option.map_eq_none

theorem icl_find_ent_named {C L : Type} (n : String) (hn : n ≠ "")
    (mods : Registry C L) :
    icl_find_ent (some n) mods =
      mods.enum.find? (fun im => strcaseEq im.2.im_name n) := by
  unfold icl_find_ent
  have h : nameEmpty (some n) = false := by
    rcases Bool.eq_false_or_eq_true (nameEmpty (some n)) with h | h
    · exact absurd ((nameEmpty_some_iff n).mp h) hn
    · exact h
  simp only [h, if_false, Bool.false_eq_true, Option.getD_some]

theorem icl_find_named_none {C L : Type} (n : String) (hn : n ≠ "")
    (mods : Registry C L) :
    icl_find (some n) mods = none ↔
      ∀ m ∈ mods, strcaseEq m.im_name n = false := by
  rw [icl_find_eq_none, icl_find_ent_named n hn]
  exact find?_enumFrom_none (fun m => strcaseEq m.im_name n) mods 0

theorem icl_find_ent_named_first {C L : Type} (n : String) (hn : n ≠ "")
    (l₁ : List (icl_module C L)) (im : icl_module C L)
    (l₂ : List (icl_module C L)) (him : strcaseEq im.im_name n = true)
    (hl₁ : ∀ x ∈ l₁, strcaseEq x.im_name n = false) :
    icl_find_ent (some n) (l₁ ++ im :: l₂) = some (l₁.length, im) := by
  rw [icl_find_ent_named n hn]
  have := find?_enumFrom_first (fun m => strcaseEq m.im_name n)
    l₁ im l₂ 0 him hl₁
  rw [show (l₁ ++ im :: l₂).enum = List.enumFrom 0 (l₁ ++ im :: l₂) from rfl]
  rw [this]
  simp

theorem icl_find_ent_empty_of_none {C L : Type} (name : Option String)
    (h : nameEmpty name = true) (mods : Registry C L)
    (hf : icl_find_ent name mods = none) : mods = [] := by
  cases mods with
  | nil => rfl
  | cons m rest =>
    rw [icl_find_ent_auto name h m rest] at hf
    exact absurd hf (by simp)

theorem icl_find_ent_idx_lt {C L : Type} (name : Option String)
    (mods : Registry C L) (e : Nat × icl_module C L)
    (h : icl_find_ent name mods = some e) : e.1 < mods.length := by
  by_cases hname : nameEmpty name = true
  · cases mods with
    | nil => rw [icl_find_ent_nil] at h; exact absurd h (by simp)
    | cons m rest =>
      rw [icl_find_ent_auto name hname m rest] at h
      have he : ((m :: rest).enum).foldl pickMax (0, m) = e :=
        Option.some.inj h
      rcases foldl_pick_mem pickMax pickMax_cases ((m :: rest).enum) (0, m)
        with hc | hc
      · rw [he] at hc
        rw [hc]
        simp
      · rw [he] at hc
        have := fst_lt_of_mem_enumFrom (m :: rest) 0 e hc
        simpa using this
  · have hn : name = some (name.getD "") ∧ name.getD "" ≠ "" := by
      cases name with
      | none => exact absurd rfl hname
      | some s =>
        refine ⟨rfl, ?_⟩
        intro hs
        exact hname ((nameEmpty_some_iff s).mpr hs)
    rcases hn with ⟨hn1, hn2⟩
    rw [hn1, icl_find_ent_named (name.getD "") hn2 mods] at h
    have hmem := List.mem_of_find?_eq_some h
    have := fst_lt_of_mem_enumFrom mods 0 e
      (by rw [show mods.enum = List.enumFrom 0 mods from rfl] at hmem
          exact hmem)
    simpa using this

theorem EBUSY_ne_zero : EBUSY ≠ 0 := by decide

theorem ENXIO_ne_zero : ENXIO_errno ≠ 0 := by decide

theorem icl_register_of_found {C L : Type} (n : String) (p : Int)
    (f : Nat → Int × Nat) (g : String → L → Option C) (mods : Registry C L)
    (im : icl_module C L) (h : icl_find (some n) mods = some im) :
    icl_register n p f g mods = (EBUSY, mods) := by
  unfold icl_register
  rw [h]

theorem icl_register_of_not_found {C L : Type} (n : String) (p : Int)
    (f : Nat → Int × Nat) (g : String → L → Option C) (mods : Registry C L)
    (h : icl_find (some n) mods = none) :
    icl_register n p f g mods = (0, ⟨n, p, f, g⟩ :: mods) := by
  unfold icl_register
  rw [h]

theorem icl_unregister_of_none {C L : Type} (name : Option String)
    (mods : Registry C L) (h : icl_find_ent name mods = none) :
    icl_unregister name mods = (ENXIO_errno, mods) := by
  unfold icl_unregister
  rw [h]

theorem icl_unregister_of_some {C L : Type} (name : Option String)
    (mods : Registry C L) (e : Nat × icl_module C L)
    (h : icl_find_ent name mods = some e) :
    icl_unregister name mods = (0, mods.eraseIdx e.1) := by
  unfold icl_unregister
  rw [h]

theorem icl_register_length {C L : Type} (n : String) (p : Int)
    (f : Nat → Int × Nat) (g : String → L → Option C) (s : Registry C L) :
    ((icl_register n p f g s).2).length
      = s.length + (if (icl_register n p f g s).1 = 0 then 1 else 0) := by
  cases hf : icl_find (some n) s with
  | some im =>
    rw [icl_register_of_found n p f g s im hf]
    simp [EBUSY_ne_zero]
  | none =>
    rw [icl_register_of_not_found n p f g s hf]
    simp

theorem icl_unregister_length {C L : Type} (name : Option String)
    (s : Registry C L) :
    ((icl_unregister name s).2).length
        + (if (icl_unregister name s).1 = 0 then 1 else 0) = s.length := by
  cases hf : icl_find_ent name s with
  | none =>
    rw [icl_unregister_of_none name s hf]
    simp [ENXIO_ne_zero]
  | some e =>
    have hlt := icl_find_ent_idx_lt name s e hf
    rw [icl_unregister_of_some name s e hf]
    simp only [List.length_eraseIdx]
    simp [hlt]
    omega

theorem icl_run_length {C L : Type} :
    ∀ (ops : List (IclOp C L)) (s : Registry C L),
      ((icl_run s ops).1).length + (icl_run s ops).2.2
        = s.length + (icl_run s ops).2.1 := by
  intro ops
  induction ops with
  | nil => intro s; rfl
  | cons op t ih =>
    intro s
    cases op with
    | reg n p f g =>
      have h1 := ih (icl_register n p f g s).2
      have h2 := icl_register_length n p f g s
      simp only [icl_run, icl_step]
      omega
    | unreg name =>
      have h1 := ih (icl_unregister name s).2
      have h2 := icl_unregister_length name s
      simp only [icl_run, icl_step]
      omega

/-! ## Claims -/

/-- C1: resolving with an empty or absent driver name returns NotFound
(NULL) on an empty registry; on a non-empty registry it returns a
record of maximal priority that is the first such record in traversal
order (every record strictly before it has strictly smaller priority);
and since registration inserts at the head, a successful registration
whose priority is at least every existing priority is the record that
empty-name resolution then returns (the most recently registered
record wins ties). -/
theorem C1_empty_name_resolution (C L : Type) :
    (∀ name : Option String, nameEmpty name = true →
      icl_find name ([] : Registry C L) = none) ∧
    (∀ (name : Option String) (mods : Registry C L),
      nameEmpty name = true → mods ≠ [] →
      ∃ im l₁ l₂, icl_find name mods = some im ∧ mods = l₁ ++ im :: l₂ ∧
        (∀ x ∈ mods, x.im_priority ≤ im.im_priority) ∧
        (∀ x ∈ l₁, x.im_priority < im.im_priority)) ∧
    (∀ (n : String) (p : Int) (f : Nat → Int × Nat)
        (g : String → L → Option C) (s : Registry C L),
      (icl_register n p f g s).1 = 0 → (∀ x ∈ s, x.im_priority ≤ p) →
      icl_find none (icl_register n p f g s).2 = some ⟨n, p, f, g⟩) := by
  refine ⟨?_, ?_, ?_⟩
  · intro name h
    unfold icl_find
    rw [icl_find_ent_nil]
    rfl
  · intro name mods h hne
    cases mods with
    | nil => exact absurd rfl hne
    | cons m rest =>
      rw [icl_find_auto name h m rest]
      rcases foldl_mpick_spec (m :: rest) m ((m :: rest).foldl mpick m) rfl
        with ⟨⟨h1, h2⟩, h3⟩
      rcases h3 with h3 | ⟨l₁, l₂, hsp, hlt, hl₁⟩
      · exact ⟨(m :: rest).foldl mpick m, [], rest, rfl,
          by rw [h3, List.nil_append], h2, by simp⟩
      · exact ⟨(m :: rest).foldl mpick m, l₁, l₂, rfl, hsp, h2, hl₁⟩
  · intro n p f g s hsucc hmax
    cases hf : icl_find (some n) s with
    | some im =>
      rw [icl_register_of_found n p f g s im hf] at hsucc
      exact absurd hsucc EBUSY_ne_zero
    | none =>
      rw [icl_register_of_not_found n p f g s hf]
      rw [icl_find_auto none rfl ⟨n, p, f, g⟩ s]
      have : ((⟨n, p, f, g⟩ : icl_module C L) :: s).foldl mpick ⟨n, p, f, g⟩
          = ⟨n, p, f, g⟩ := by
        apply foldl_mpick_of_max
        intro x hx
        rcases List.mem_cons.mp hx with rfl | hx
        · exact le_refl _
        · exact hmax x hx
      rw [this]

/-- Witness for C1: registering "a" at priority 5 and then "b" at
priority 5 into the empty registry, empty-name resolution returns the
"b" record (most recently registered among the tied maximum). -/
theorem C1_empty_name_resolution_witness :
    icl_find none (icl_register "b" 5 limNop connNop
        (icl_register "a" 5 limNop connNop ([] : Registry Unit Unit)).2).2
      = some ⟨"b", 5, limNop, connNop⟩ :=
  (C1_empty_name_resolution Unit Unit).2.2 "b" 5 limNop connNop
    (icl_register "a" 5 limNop connNop ([] : Registry Unit Unit)).2
    rfl (by decide)

/-- C3: resolving a non-empty name returns NotFound (NULL) exactly when
no record matches it case-insensitively, and returns the first
case-insensitive match in traversal order, with no reference to any
record's priority. -/
theorem C3_named_resolution (C L : Type) (n : String) (hn : n ≠ "")
    (mods : Registry C L) :
    (icl_find (some n) mods = none ↔
      ∀ m ∈ mods, strcaseEq m.im_name n = false) ∧
    (∀ l₁ im l₂, mods = l₁ ++ im :: l₂ → strcaseEq im.im_name n = true →
      (∀ x ∈ l₁, strcaseEq x.im_name n = false) →
      icl_find (some n) mods = some im) := by
  constructor
  · exact icl_find_named_none n hn mods
  · intro l₁ im l₂ hsplit him hl₁
    subst hsplit
    unfold icl_find
    rw [icl_find_ent_named_first n hn l₁ im l₂ him hl₁]
    rfl

/-- Witness for C3: with records b:5 then a:1 in traversal order,
resolving "A" returns the a:1 record despite b's higher priority. -/
theorem C3_named_resolution_witness :
    icl_find (some "A") [modB, modA] = some modA :=
  (C3_named_resolution Unit Unit "A" (by decide) [modB, modA]).2
    [modB] modA [] rfl (by decide) (by decide)

/-- C4: icl_new_conn returns NULL when the offload name resolves to no
driver, and otherwise returns exactly the resolved driver's factory
applied once to the caller's connection name and lock, verbatim
(including NULL when the factory fails). -/
theorem C4_new_conn_forwarding (C L : Type) (offload : Option String)
    (name : String) (lock : L) (mods : Registry C L) :
    (icl_find offload mods = none →
      icl_new_conn offload name lock mods = none) ∧
    (∀ im, icl_find offload mods = some im →
      icl_new_conn offload name lock mods = im.im_new_conn name lock) := by
  constructor
  · intro h
    unfold icl_new_conn
    rw [h]
  · intro im h
    unfold icl_new_conn
    rw [h]

/-- Witness for C4: an unknown offload yields NULL; a known offload
yields the factory's own result. -/
theorem C4_new_conn_forwarding_witness :
    icl_new_conn (some "x") "conn0" () [modA] = none ∧
    icl_new_conn (some "a") "conn0" () [modA]
      = modA.im_new_conn "conn0" () :=
  ⟨(C4_new_conn_forwarding Unit Unit (some "x") "conn0" () [modA]).1 rfl,
   (C4_new_conn_forwarding Unit Unit (some "a") "conn0" () [modA]).2
      modA rfl⟩

/-- C5: icl_limits returns ENXIO_errno with the out-parameter untouched when
the offload name resolves to no driver, and otherwise returns exactly
the resolved driver's limits callback result (status code and stored
limit value). -/
theorem C5_limits_forwarding (C L : Type) (offload : Option String)
    (limitp : Nat) (mods : Registry C L) :
    (icl_find offload mods = none →
      icl_limits offload limitp mods = (ENXIO_errno, limitp)) ∧
    (∀ im, icl_find offload mods = some im →
      icl_limits offload limitp mods = im.im_limits limitp) := by
  constructor
  · intro h
    unfold icl_limits
    rw [h]
  · intro im h
    unfold icl_limits
    rw [h]

/-- Witness for C5: an unknown offload yields ENXIO_errno with the pointee
unchanged; a known offload yields its callback's result. -/
theorem C5_limits_forwarding_witness :
    icl_limits (some "x") 42 [modA] = (ENXIO_errno, 42) ∧
    icl_limits (some "a") 42 [modA] = modA.im_limits 42 :=
  ⟨(C5_limits_forwarding Unit Unit (some "x") 42 [modA]).1 rfl,
   (C5_limits_forwarding Unit Unit (some "a") 42 [modA]).2 modA rfl⟩

/-- Counterexample to C2 as stated: with the single record named "a",
the empty name matches no record case-insensitively, yet registering
the empty name fails with EBUSY (a nonzero code) instead of
succeeding and inserting a record, because the collision check runs
icl_find's highest-priority auto-selection for an empty name. -/
theorem C2_register_cex :
    strcaseEq modA.im_name "" = false ∧
    icl_register "" 7 limNop connNop [modA] = (EBUSY, [modA]) ∧
    EBUSY ≠ 0 :=
  ⟨rfl, rfl, by decide⟩

/-- C2 as amended: whenever some record matches the given name
case-insensitively, register fails with EBUSY and leaves the registry
unchanged; and for a NON-EMPTY given name with no case-insensitive
match, register succeeds and inserts the new record, carrying the
given priority and callbacks, at the head of the collection. -/
theorem C2_register_spec (C L : Type) (n : String) (p : Int)
    (f : Nat → Int × Nat) (g : String → L → Option C)
    (mods : Registry C L) :
    ((∃ m ∈ mods, strcaseEq m.im_name n = true) →
      icl_register n p f g mods = (EBUSY, mods)) ∧
    (n ≠ "" → (∀ m ∈ mods, strcaseEq m.im_name n = false) →
      icl_register n p f g mods = (0, ⟨n, p, f, g⟩ :: mods)) := by
  constructor
  · rintro ⟨m, hm, hmatch⟩
    by_cases hn : n = ""
    · subst hn
      cases mods with
      | nil => exact absurd hm (List.not_mem_nil m)
      | cons m0 rest =>
        exact icl_register_of_found "" p f g (m0 :: rest) _
          (icl_find_auto (some "") rfl m0 rest)
    · cases hfind : icl_find (some n) mods with
      | none =>
        rw [icl_find_named_none n hn mods] at hfind
        exact absurd (hfind m hm) (by simp [hmatch])
      | some im => exact icl_register_of_found n p f g mods im hfind
  · intro hn hnone
    exact icl_register_of_not_found n p f g mods
      ((icl_find_named_none n hn mods).mpr hnone)

/-- Witness for the amended C2: registering "A" over the existing "a"
record fails with EBUSY and leaves the registry unchanged; registering
the fresh name "b" inserts its record at the head. -/
theorem C2_register_spec_witness :
    icl_register "A" 7 limNop connNop [modA] = (EBUSY, [modA]) ∧
    icl_register "b" 2 limNop connNop [modA]
      = (0, ⟨"b", 2, limNop, connNop⟩ :: [modA]) :=
  ⟨(C2_register_spec Unit Unit "A" 7 limNop connNop [modA]).1
      ⟨modA, List.mem_cons_self modA [], rfl⟩,
   (C2_register_spec Unit Unit "b" 2 limNop connNop [modA]).2
      (by decide) (by decide)⟩

/-- Counterexample to C6 as stated: with records a:1 and b:5 and the
empty name, no record matches case-insensitively, yet unregister
returns 0 (not ENXIO_errno) and removes the b record (the highest-priority
one picked by icl_find's empty-name auto-selection), mutating the
registry. -/
theorem C6_unregister_cex :
    strcaseEq modA.im_name "" = false ∧
    strcaseEq modB.im_name "" = false ∧
    icl_unregister (some "") [modA, modB] = (0, [modA]) :=
  ⟨rfl, rfl, rfl⟩

/-- C6 as amended: for a NON-EMPTY name, unregister with no
case-insensitive match fails with ENXIO_errno and leaves the registry
unchanged; with a match it removes exactly the first matching record
in traversal order and leaves every other record in place. -/
theorem C6_unregister_spec (C L : Type) (n : String) (hn : n ≠ "")
    (mods : Registry C L) :
    ((∀ m ∈ mods, strcaseEq m.im_name n = false) →
      icl_unregister (some n) mods = (ENXIO_errno, mods)) ∧
    (∀ l₁ im l₂, mods = l₁ ++ im :: l₂ → strcaseEq im.im_name n = true →
      (∀ x ∈ l₁, strcaseEq x.im_name n = false) →
      icl_unregister (some n) mods = (0, l₁ ++ l₂)) := by
  constructor
  · intro h
    have hf : icl_find_ent (some n) mods = none := by
      rw [icl_find_ent_named n hn]
      exact (find?_enumFrom_none (fun m => strcaseEq m.im_name n)
        mods 0).mpr h
    exact icl_unregister_of_none (some n) mods hf
  · intro l₁ im l₂ hsplit him hl₁
    subst hsplit
    rw [icl_unregister_of_some (some n) _ (l₁.length, im)
      (icl_find_ent_named_first n hn l₁ im l₂ him hl₁)]
    rw [eraseIdx_append_middle]

/-- Witness for the amended C6: unregistering the unknown name "zz"
fails with ENXIO_errno leaving the registry unchanged; unregistering "A"
removes the matching a:1 record and keeps the b:5 record. -/
theorem C6_unregister_spec_witness :
    icl_unregister (some "zz") [modA] = (ENXIO_errno, [modA]) ∧
    icl_unregister (some "A") [modB, modA] = (0, [modB]) :=
  ⟨(C6_unregister_spec Unit Unit "zz" (by decide) [modA]).1 (by decide),
   (C6_unregister_spec Unit Unit "A" (by decide) [modB, modA]).2
      [modB] modA [] rfl (by decide) (by decide)⟩

theorem sysctl_foldl_shift {C L : Type} :
    ∀ (t : List (icl_module C L)) (k : Nat) (sb : String), k ≠ 0 →
      (List.enumFrom k t).foldl
          (fun sb im => (if im.1 ≠ 0 then sb ++ " " else sb) ++ im.2.im_name)
          sb
        = (t.map icl_module.im_name).foldl (fun acc x => acc ++ " " ++ x) sb := by
  intro t
  induction t with
  | nil => intro k sb _; rfl
  | cons x r ih =>
    intro k sb hk
    rw [show List.enumFrom k (x :: r) = (k, x) :: List.enumFrom (k + 1) r
      from rfl]
    simp only [List.foldl_cons, List.map_cons]
    rw [if_pos hk]
    exact ih (k + 1) (sb ++ " " ++ x.im_name) (by omega)

/-- C7: the drivers sysctl renders exactly the registered names in
traversal order joined by single spaces with no leading or trailing
separator (the spec-level join of the name list); on the empty
registry it renders the empty string, and after registering "A", "B",
"C" in that order into an empty registry it renders "C B A". -/
theorem C7_list_names (C L : Type) :
    (∀ mods : Registry C L,
      sysctl_kern_icl_drivers mods
        = specJoin (mods.map icl_module.im_name)) ∧
    sysctl_kern_icl_drivers ([] : Registry Unit Unit) = "" ∧
    sysctl_kern_icl_drivers
        (icl_register "C" 3 limNop connNop
          (icl_register "B" 2 limNop connNop
            (icl_register "A" 1 limNop connNop
              ([] : Registry Unit Unit)).2).2).2 = "C B A" := by
  refine ⟨?_, rfl, rfl⟩
  intro mods
  cases mods with
  | nil => rfl
  | cons m rest =>
    unfold sysctl_kern_icl_drivers
    rw [show (m :: rest).enum = (0, m) :: List.enumFrom 1 rest from rfl]
    simp only [List.foldl_cons, List.map_cons, specJoin]
    rw [if_neg (by simp)]
    have h0 : ("" : String) ++ m.im_name = m.im_name := by simp
    rw [h0]
    exact sysctl_foldl_shift rest 1 m.im_name (by omega)

/-- C8: in every registry state reachable from the empty registry by
any sequence of icl_register and icl_unregister calls, the names of
the records are pairwise case-insensitively distinct. -/
theorem C8_names_unique (C L : Type) (s : Registry C L)
    (h : Reachable s) :
    s.Pairwise (fun a b => strcaseEq a.im_name b.im_name = false) := by
  induction h with
  | init => exact List.Pairwise.nil
  | step_reg n p f g s0 hs ih =>
    cases hfind : icl_find (some n) s0 with
    | some im =>
      rw [icl_register_of_found n p f g s0 im hfind]
      exact ih
    | none =>
      rw [icl_register_of_not_found n p f g s0 hfind]
      by_cases hn : n = ""
      · subst hn
        have hnil : s0 = [] :=
          icl_find_ent_empty_of_none (some "") rfl s0
            ((icl_find_eq_none (some "") s0).mp hfind)
        subst hnil
        simp
      · have hall := (icl_find_named_none n hn s0).mp hfind
        refine List.Pairwise.cons ?_ ih
        intro m hm
        have hone := hall m hm
        rw [strcaseEq_symm] at hone
        exact hone
  | step_unreg name s0 hs ih =>
    cases hfind : icl_find_ent name s0 with
    | none =>
      rw [icl_unregister_of_none name s0 hfind]
      exact ih
    | some e =>
      rw [icl_unregister_of_some name s0 e hfind]
      exact ih.sublist (List.eraseIdx_sublist s0 e.1)

/-- Witness for C8: the state reached by registering "a" into the
empty registry has pairwise case-insensitively distinct names. -/
theorem C8_names_unique_witness :
    ((icl_register "a" 1 limNop connNop
        ([] : Registry Unit Unit)).2).Pairwise
      (fun a b => strcaseEq a.im_name b.im_name = false) :=
  C8_names_unique Unit Unit _
    (Reachable.step_reg "a" 1 limNop connNop [] Reachable.init)

/-- C9: running any operation sequence from the empty registry in
which the successful register calls are exactly matched in number by
successful unregister calls leaves the registry empty, so icl_unload's
KASSERT passes (returning 0); tearing down any non-empty registry
fires the fatal assertion instead of returning an error. -/
theorem C9_unload_assertion (C L : Type) :
    (∀ ops : List (IclOp C L),
      (icl_run ([] : Registry C L) ops).2.1
          = (icl_run ([] : Registry C L) ops).2.2 →
      icl_unload (icl_run ([] : Registry C L) ops).1 = some 0) ∧
    (∀ mods : Registry C L, mods ≠ [] → icl_unload mods = none) := by
  constructor
  · intro ops hbal
    have hlen := icl_run_length ops ([] : Registry C L)
    have hzero : ((icl_run ([] : Registry C L) ops).1).length = 0 := by
      simp only [List.length_nil] at hlen
      omega
    have hnil : (icl_run ([] : Registry C L) ops).1 = [] :=
      List.length_eq_zero.mp hzero
    rw [hnil]
    rfl
  · intro mods hne
    unfold icl_unload
    cases mods with
    | nil => exact absurd rfl hne
    | cons m rest => rfl

/-- Witness for C9: after one successful register and one successful
unregister the assertion passes; with one record left it fires. -/
theorem C9_unload_assertion_witness :
    icl_unload (icl_run ([] : Registry Unit Unit)
      [IclOp.reg "a" 1 limNop connNop, IclOp.unreg (some "a")]).1
        = some 0 ∧
    icl_unload [modA] = none :=
  ⟨(C9_unload_assertion Unit Unit).1
      [IclOp.reg "a" 1 limNop connNop, IclOp.unreg (some "a")] rfl,
   (C9_unload_assertion Unit Unit).2 [modA] (by simp)⟩

/-- C10: registering with an empty name on any non-empty registry
fails with EBUSY and leaves the registry unchanged (the collision
check's empty-name lookup auto-selects some record), while on the
empty registry it succeeds and inserts a record whose name is the
empty string. -/
theorem C10_register_empty_name (C L : Type) (p : Int)
    (f : Nat → Int × Nat) (g : String → L → Option C) :
    (∀ mods : Registry C L, mods ≠ [] →
      icl_register "" p f g mods = (EBUSY, mods)) ∧
    icl_register "" p f g ([] : Registry C L) = (0, [⟨"", p, f, g⟩]) := by
  constructor
  · intro mods hne
    cases mods with
    | nil => exact absurd rfl hne
    | cons m rest =>
      exact icl_register_of_found "" p f g (m :: rest) _
        (icl_find_auto (some "") rfl m rest)
  · exact icl_register_of_not_found "" p f g []
      (by rw [icl_find_eq_none]; exact icl_find_ent_nil (some ""))

/-- Witness for C10: registering the empty name over the single "a"
record fails with EBUSY even though no record's name is empty. -/
theorem C10_register_empty_name_witness :
    icl_register "" 7 limNop connNop [modA] = (EBUSY, [modA]) :=
  (C10_register_empty_name Unit Unit 7 limNop connNop).1 [modA] (by simp)

end Icl
